import Mathlib

/-!
Verification development for the PAN-OS configuration extraction script
(src/parser.py).  The script reads XML configuration documents with lxml
and produces flattened firewall rule records.  We shallowly embed the XML
document model and the exact XPath queries / traversals the script
performs, and prove properties of the embedded functions.

Conventions of the embedding:
* An XML document is a tree of element and text nodes (`XNode`).  Text is
  modelled as child nodes (the configurations at hand have no mixed
  content whose tail-text distinction would matter).
* lxml/XPath node-sets are returned in document order without duplicate
  nodes; we realise each query as a `filterMap` over the pre-order
  enumeration of the tree (`enumNodes`), which enumerates every node
  exactly once in document order together with its chain of ancestors
  (nearest first).
* Queries rooted at the ElementTree (`tree.xpath(".//...")` and
  `tree.xpath("//...")`) have the document node as context, so the root
  element itself is a candidate for the first step of the path.
* Python `str.split()` (split on runs of whitespace, no empty tokens) and
  `';'.join`, `''.join` are modelled character-exactly.
-/

inductive XNode where
  | text (s : String)
  | elem (tag : String) (attrs : List (String × String)) (children : List XNode)

/-- Children of a node (text nodes have none). -/
def childrenOf : XNode → List XNode
  | .text _ => []
  | .elem _ _ cs => cs

/-- The tag of an element, `""` for a text node (used only where the
source guarantees an element). -/
def tagOfD : XNode → String
  | .text _ => ""
  | .elem t _ _ => t

/-- `tagIs n t` holds when `n` is an element with tag `t`. -/
def tagIs (n : XNode) (t : String) : Bool :=
  match n with
  | .text _ => false
  | .elem tg _ _ => tg == t

/-- Attribute lookup, modelling `node.attrib[k]` / `@k` in XPath. -/
def getAttr (n : XNode) (k : String) : Option String :=
  match n with
  | .text _ => none
  | .elem _ as _ => (as.find? (fun p => p.1 == k)).map (fun p => p.2)

/-- Whether the node carries the given attribute (XPath `[@k]`). -/
def hasAttr (n : XNode) (k : String) : Bool :=
  (getAttr n k).isSome

/-- The string value of the `name` attribute, `""` when absent (matching
XPath string conversion of an empty attribute node-set). -/
def nameAttrD (n : XNode) : String :=
  (getAttr n "name").getD ""

/-- First attribute value of a node, modelling lxml `node.values()[0]`
(the script only applies it to nodes matched by `entry[@name]`). -/
def values0 : XNode → String
  | .elem _ ((_, v) :: _) _ => v
  | _ => ""

/-- An element node tagged `entry` that carries a `name` attribute,
i.e. a node matched by the XPath step `entry[@name]`. -/
def isEntryWithName (n : XNode) : Bool :=
  tagIs n "entry" && hasAttr n "name"

/-- Whether the node has a child element tagged `member` (XPath
predicate `[member]`). -/
def hasMemberChild (n : XNode) : Bool :=
  (childrenOf n).any (fun c => tagIs c "member")

mutual
/-- All text content under a node in document order, modelling lxml
`''.join(node.itertext())`. -/
def itertext : XNode → String
  | .text s => s
  | .elem _ _ cs => itertextList cs
def itertextList : List XNode → String
  | [] => ""
  | c :: cs => itertext c ++ itertextList cs
end

/-- `startsWithChars p l` : `p` is an initial segment of `l`. -/
def startsWithChars : List Char → List Char → Bool
  | [], _ => true
  | _ :: _, [] => false
  | p :: ps, c :: cs => p == c && startsWithChars ps cs

/-- `hasSubChars p l` : `p` occurs contiguously inside `l`. -/
def hasSubChars (pat : List Char) : List Char → Bool
  | [] => startsWithChars pat []
  | c :: cs => startsWithChars pat (c :: cs) || hasSubChars pat cs

/-- Substring test on strings, modelling the XPath `contains(a, b)`
function. -/
def strContains (s pat : String) : Bool :=
  hasSubChars pat.toList s.toList

/-- Whitespace as recognised by Python `str.split()` on the documents at
hand (ASCII whitespace). -/
def isPyWS (c : Char) : Bool :=
  c == ' ' || c == '\t' || c == '\n' || c == '\r' || c == '\x0b' || c == '\x0c'

/-- Core of Python `str.split()`: returns the whitespace-separated
tokens (as char lists) together with a flag telling whether the first
token is still open to the left. -/
def pySplitAux : List Char → List (List Char) × Bool
  | [] => ([], false)
  | c :: cs =>
    let r := pySplitAux cs
    if isPyWS c then (r.1, false)
    else
      match r with
      | (t :: ts, true) => ((c :: t) :: ts, true)
      | (ts, _) => ([c] :: ts, true)

/-- Python `s.split()`. -/
def pySplit (s : String) : List String :=
  (pySplitAux s.toList).1.map (fun l => String.mk l)

/-- `';'.join` on token lists, at the character level. -/
def joinSemiChars : List (List Char) → List Char
  | [] => []
  | [t] => t
  | t :: ts => t ++ ';' :: joinSemiChars ts

/-- Python `';'.join(s.split())`, the normalisation the script applies
to each member list text. -/
def pyJoinSplit (s : String) : String :=
  String.mk (joinSemiChars (pySplitAux s.toList).1)

mutual
/-- Pre-order (= document order) enumeration of all nodes of a tree,
each paired with its list of ancestors, nearest first.  `anc` is the
ancestor chain of the node `n` itself. -/
def enumNodes (anc : List XNode) (n : XNode) : List (XNode × List XNode) :=
  match n with
  | .text s => [(.text s, anc)]
  | .elem t a cs =>
    (.elem t a cs, anc) :: enumList (XNode.elem t a cs :: anc) cs
def enumList (anc : List XNode) : List XNode → List (XNode × List XNode)
  | [] => []
  | c :: cs => enumNodes anc c ++ enumList anc cs
end

/-- `OccIn m rel n` : node `m` occurs in the tree `n` with ancestor
chain `rel` (nearest first, ending with `n` itself unless `m = n`). -/
inductive OccIn : XNode → List XNode → XNode → Prop where
  | refl (n : XNode) : OccIn n [] n
  | step {m : XNode} {manc : List XNode} {t : String}
      {a : List (String × String)} {cs : List XNode} {c : XNode} :
      c ∈ cs → OccIn m manc c →
      OccIn m (manc ++ [XNode.elem t a cs]) (XNode.elem t a cs)

/-! ### The embedded script

`src/parser.py` defines two functions plus a `__main__` aggregation
block.  Both functions take an `xml` argument but read the module-level
variable `tree` (set by the main loop); the embedding makes that ambient
tree an explicit first argument and keeps the unused `xml` parameter. -/

/-- `tree.xpath("/config/panorama")` is non-empty: the root element is
tagged `config` and has a `panorama` child.  This is the run-time mode
marker for centrally-managed (Panorama) configurations. -/
def isPanorama (tree : XNode) : Bool :=
  tagIs tree "config" && (childrenOf tree).any (fun c => tagIs c "panorama")

/-- The chain `devices/entry[@name]/vsys/entry[@name]` below a node:
together with `isEntryWithName` this characterises the elements whose
`name` attribute the Panorama branch collects. -/
def hasPanChain (o : XNode) : Bool :=
  (childrenOf o).any (fun dv => tagIs dv "devices" &&
    (childrenOf dv).any (fun de => isEntryWithName de &&
      (childrenOf de).any (fun v => tagIs v "vsys" &&
        (childrenOf v).any (fun ve => isEntryWithName ve))))

/-- Panorama branch of the ancestor resolution:
`tree.xpath(".//entry[@name]/devices/entry[@name]/vsys/entry/@name/ancestor::entry[position()=3]/@name")`.
For each virtual-system entry on such a chain, `ancestor::entry[3]`
starting from its `@name` attribute node is the outer `entry[@name]`
four element-levels up (the attribute's ancestor axis starts at the
entry carrying it).  The XPath result is the node-set of those outer
entries' `name` attribute nodes in document order — one occurrence per
outer entry node, however many virtual systems sit below it.  We
therefore enumerate exactly the outer entries that have the full chain
beneath them. -/
def panoramaAncestors (tree : XNode) : List String :=
  (enumNodes [] tree).filterMap fun p =>
    if isEntryWithName p.1 && hasPanChain p.1 then some (nameAttrD p.1) else none

/-- Self-managed branch of the ancestor resolution:
`tree.xpath(".//entry[contains(@name,'vsys')]/display-name/text()")`
followed by `vsys.getparent().getparent().attrib['name']` for each text
node.  The first `getparent()` of a text result is the `display-name`
element carrying the text, the second is the `entry` element, so the
collected identifier is the matching entry's own `name` attribute (one
occurrence per display-name text node). -/
def selfAncestors (tree : XNode) : List String :=
  (enumNodes [] tree).filterMap fun p =>
    match p with
    | (XNode.text _, d :: e :: _) =>
      if tagIs d "display-name" && tagIs e "entry" &&
          strContains (nameAttrD e) "vsys"
      then some (nameAttrD e) else none
    | _ => none

/-- One of the three per-scope rule queries,
`tree.xpath("//entry[@name='A']/*[contains(local-name(), 'rulebase')]/security/rules/entry[@name]/*[self::FIELD[member]]".format(ancestor))`
with `FIELD` one of `source`, `destination`, `service`.  Returns each
matching field element paired with the rule `entry` that is its parent
(the script reads the rule name via `src.getparent().values()[0]`). -/
def ruleFieldNodes (tree : XNode) (a fieldTag : String) : List (XNode × XNode) :=
  (enumNodes [] tree).filterMap fun p =>
    match p with
    | (n, e :: rs :: sec :: rb :: sc :: _) =>
      if tagIs n fieldTag && hasMemberChild n &&
          isEntryWithName e && tagIs rs "rules" && tagIs sec "security" &&
          strContains (tagOfD rb) "rulebase" &&
          tagIs sc "entry" && (getAttr sc "name" == some a)
      then some (n, e) else none
    | _ => none

/-- `tree.xpath("//entry[@name='A']/display-name/text()".format(ancestor))`:
all display-name text directly under entries named `a`, in document
order. -/
def displayNameTexts (tree : XNode) (a : String) : List String :=
  (enumNodes [] tree).filterMap fun p =>
    match p with
    | (XNode.text s, d :: e :: _) =>
      if tagIs d "display-name" && tagIs e "entry" &&
          (getAttr e "name" == some a)
      then some s else none
    | _ => none

/-- The owner label attached to each rule of a scope: in Panorama mode
`ancestor + '-pan'`, otherwise `''.join` of the display-name text list
looked up for the scope identifier. -/
def ownerLabel (tree : XNode) (panConf : Bool) (a : String) : String :=
  if panConf then a ++ "-pan" else String.join (displayNameTexts tree a)

/-- Truncating three-way zip, modelling Python `zip(src, dst, port)`. -/
def zip3 : List α → List β → List γ → List (α × β × γ)
  | a :: as, b :: bs, c :: cs => (a, b, c) :: zip3 as bs cs
  | _, _, _ => []

/-- The body of the rule loop for one resolved scope identifier `a`:
zip the three independently queried node-sets by position and emit
`[owner, ruleName, source, port, destination]` rows, where the rule name
is the first attribute value of the *source* node's parent entry and
each field is `';'.join(''.join(node.itertext()).split())`. -/
def recordsFor (tree : XNode) (panConf : Bool) (a : String) : List (List String) :=
  let srcs := ruleFieldNodes tree a "source"
  let dsts := ruleFieldNodes tree a "destination"
  let ports := ruleFieldNodes tree a "service"
  let owner := ownerLabel tree panConf a
  (zip3 srcs dsts ports).map fun z =>
    match z with
    | (s, d, q) =>
      [owner, values0 s.2, pyJoinSplit (itertext s.1),
        pyJoinSplit (itertext q.1), pyJoinSplit (itertext d.1)]

/-- The rule extraction function of the script (lines 48-92 of
src/parser.py).  `tree` is the ambient module-level document the
function actually reads; `xml` is its (unused) parameter. -/
def paRuleParser (tree : XNode) (xml : XNode) : List (List String) :=
  let panConf := isPanorama tree
  let ancestors := if panConf then panoramaAncestors tree
                   else selfAncestors tree
  ancestors.flatMap (recordsFor tree panConf)

/-- Port text normalisation: the full range `1-65535` becomes `any`,
everything else is passed through. -/
def normPort (t : String) : String :=
  if t == "1-65535" then "any" else t

/-- Whether a node is an element (the XPath wildcard step `*` matches
only elements). -/
def isElemNode : XNode → Bool
  | .text _ => false
  | .elem _ _ _ => true

/-- `tree.xpath(".//service/entry[@name]/protocol/*/port")`, mapped to
the `name -> <protocol-child-tag>_<normalised-port>` bindings the
services dict receives, in iteration order. -/
def servicesOf (tree : XNode) : List (String × String) :=
  (enumNodes [] tree).filterMap fun p =>
    match p with
    | (n, pc :: proto :: e :: svc :: _) =>
      if tagIs n "port" && isElemNode pc &&
          tagIs proto "protocol" && isEntryWithName e && tagIs svc "service"
      then some (values0 e, tagOfD pc ++ "_" ++ normPort (itertext n)) else none
    | _ => none

/-- `tree.xpath(".//address/entry[@name]/ip-netmask")`, mapped to the
`name -> whitespace-split tokens` bindings of the addresses dict. -/
def addressesOf (tree : XNode) : List (String × List String) :=
  (enumNodes [] tree).filterMap fun p =>
    match p with
    | (n, e :: ad :: _) =>
      if tagIs n "ip-netmask" && isEntryWithName e && tagIs ad "address"
      then some (values0 e, pySplit (itertext n)) else none
    | _ => none

/-- `tree.xpath(".//service-group/entry[@name]/members[member]")`. -/
def serviceGroupsOf (tree : XNode) : List (String × List String) :=
  (enumNodes [] tree).filterMap fun p =>
    match p with
    | (n, e :: sg :: _) =>
      if tagIs n "members" && hasMemberChild n && isEntryWithName e &&
          tagIs sg "service-group"
      then some (values0 e, pySplit (itertext n)) else none
    | _ => none

/-- `tree.xpath(".//address-group/entry[@name]/static[member]")`. -/
def addressGroupsOf (tree : XNode) : List (String × List String) :=
  (enumNodes [] tree).filterMap fun p =>
    match p with
    | (n, e :: ag :: _) =>
      if tagIs n "static" && hasMemberChild n && isEntryWithName e &&
          tagIs ag "address-group"
      then some (values0 e, pySplit (itertext n)) else none
    | _ => none

/-- The object extraction function of the script (lines 10-46 of
src/parser.py): the four name-to-definition dictionaries, each given as
its list of bindings in insertion order.  As in the source, the `xml`
parameter is unused and the ambient `tree` is read. -/
def paObjParser (tree : XNode) (xml : XNode) :
    List (String × String) × List (String × List String) ×
      List (String × List String) × List (String × List String) :=
  (servicesOf tree, addressesOf tree, serviceGroupsOf tree, addressGroupsOf tree)

/-- The `__main__` aggregation: parse every document, collect each
document's rule rows, flatten, and keep the set of unique rows (the
Python `set` of 5-tuples, here the deduplicated list). -/
def aggregateRules (docs : List XNode) : List (List String) :=
  ((docs.map (fun d => paRuleParser d d)).flatten).dedup

/-! ### Concrete documents

Small configuration documents used to witness satisfiability and to
exhibit failing inputs.  Pretty-printing whitespace between `member`
elements is modelled by explicit text nodes, as in real exports. -/

/-- A `member` element with the given token. -/
def memberNode (s : String) : XNode :=
  .elem "member" [] [.text s]

/-- Self-managed document with one virtual system `vsys1`
(display name `DMZ`) and two rules: `r1` has source and destination
member lists but no service list, `r2` has all three. -/
def exDoc : XNode :=
  .elem "config" [] [
    .elem "devices" [] [
      .elem "entry" [("name", "fw1")] [
        .elem "vsys" [] [
          .elem "entry" [("name", "vsys1")] [
            .elem "display-name" [] [.text "DMZ"],
            .elem "rulebase" [] [
              .elem "security" [] [
                .elem "rules" [] [
                  .elem "entry" [("name", "r1")] [
                    .elem "source" [] [memberNode "a1"],
                    .elem "destination" [] [memberNode "b1"]],
                  .elem "entry" [("name", "r2")] [
                    .elem "source" [] [memberNode "a2"],
                    .elem "destination" [] [memberNode "b2"],
                    .elem "service" [] [memberNode "tcp-80"]]]]]]]]]]

/-- Self-managed document whose vsys entry `vsys1` (display name
`Internal`) has a grandparent entry named `fw1`, plus a second entry
`vsys2` that has no `display-name` child.  One complete rule sits under
`vsys1`. -/
def doc4 : XNode :=
  .elem "config" [] [
    .elem "devices" [] [
      .elem "entry" [("name", "fw1")] [
        .elem "vsys" [] [
          .elem "entry" [("name", "vsys1")] [
            .elem "display-name" [] [.text "Internal"],
            .elem "rulebase" [] [
              .elem "security" [] [
                .elem "rules" [] [
                  .elem "entry" [("name", "allow-web")] [
                    .elem "source" [] [memberNode "any"],
                    .elem "destination" [] [memberNode "web-srv"],
                    .elem "service" [] [memberNode "service-http"]]]]]],
          .elem "entry" [("name", "vsys2")] []]]]]

/-- Panorama document: managed-root marker plus one device-group `DG1`
with one device carrying one virtual system `vsys1`, whose rule base
holds one complete rule. -/
def panDoc : XNode :=
  .elem "config" [] [
    .elem "panorama" [] [],
    .elem "devices" [] [
      .elem "entry" [("name", "localhost.localdomain")] [
        .elem "device-group" [] [
          .elem "entry" [("name", "DG1")] [
            .elem "devices" [] [
              .elem "entry" [("name", "007200001111")] [
                .elem "vsys" [] [
                  .elem "entry" [("name", "vsys1")] []]]],
            .elem "pre-rulebase" [] [
              .elem "security" [] [
                .elem "rules" [] [
                  .elem "entry" [("name", "dg-rule")] [
                    .elem "source" [] [
                      .text "\n", memberNode "1.1.1.0/24",
                      .text "\n", memberNode "3.3.3.3",
                      .text "\n"],
                    .elem "destination" [] [memberNode "2.2.2.0/24"],
                    .elem "service" [] [memberNode "tcp_443"]]]]]]]]]]

/-- Panorama document in which two *distinct* device-group entries both
carry the name `DG1`; the first contains two virtual systems, the second
one. -/
def doc6 : XNode :=
  .elem "config" [] [
    .elem "panorama" [] [],
    .elem "device-group" [] [
      .elem "entry" [("name", "DG1")] [
        .elem "devices" [] [
          .elem "entry" [("name", "dev1")] [
            .elem "vsys" [] [
              .elem "entry" [("name", "vsys1")] [],
              .elem "entry" [("name", "vsys2")] []]]]],
      .elem "entry" [("name", "DG1")] [
        .elem "devices" [] [
          .elem "entry" [("name", "dev2")] [
            .elem "vsys" [] [
              .elem "entry" [("name", "vsys1")] []]]]]]]

/-- Self-managed document in which two distinct entries share the name
`avsys` (which contains `vsys`), the first with display-name text `X`,
the second with display-name text `Y`. -/
def doc3 : XNode :=
  .elem "config" [] [
    .elem "devices" [] [
      .elem "entry" [("name", "fw1")] [
        .elem "vsys" [] [
          .elem "entry" [("name", "avsys")] [
            .elem "display-name" [] [.text "X"]],
          .elem "entry" [("name", "avsys")] [
            .elem "display-name" [] [.text "Y"]]]]]]

/-! ### Enumeration and occurrence lemmas -/

lemma mem_enumList_iff {anc : List XNode} {cs : List XNode}
    {z : XNode × List XNode} :
    z ∈ enumList anc cs ↔ ∃ c ∈ cs, z ∈ enumNodes anc c := by
  induction cs with
  | nil => simp [enumList]
  | cons c cs ih => simp [enumList, ih]

lemma enum_of_occIn {m : XNode} {rel : List XNode} {n : XNode}
    (h : OccIn m rel n) :
    ∀ anc, (m, rel ++ anc) ∈ enumNodes anc n := by
  induction h with
  | refl =>
    intro anc
    cases m <;> simp [enumNodes]
  | step hc hocc ih =>
    rename_i manc t a cs c
    intro anc
    have h2 := ih (XNode.elem t a cs :: anc)
    simp only [enumNodes, List.mem_cons]
    right
    rw [mem_enumList_iff]
    exact ⟨c, hc, by simpa using h2⟩

lemma occIn_of_enum_aux :
    ∀ (k : ℕ) (n : XNode), sizeOf n ≤ k →
      ∀ (anc : List XNode) (m : XNode) (manc : List XNode),
        (m, manc) ∈ enumNodes anc n →
        ∃ rel, manc = rel ++ anc ∧ OccIn m rel n := by
  intro k
  induction k with
  | zero =>
    intro n hn
    exfalso
    cases n with
    | text s => rw [XNode.text.sizeOf_spec] at hn; omega
    | elem t a cs => rw [XNode.elem.sizeOf_spec] at hn; omega
  | succ k ih =>
    intro n hn anc m manc hmem
    cases n with
    | text s =>
      simp [enumNodes] at hmem
      exact ⟨[], by simp [hmem.2], by rw [hmem.1]; exact OccIn.refl _⟩
    | elem t a cs =>
      simp only [enumNodes, List.mem_cons] at hmem
      rcases hmem with heq | hmem
      · injection heq with h1 h2
        subst h1
        exact ⟨[], by simp [h2], OccIn.refl _⟩
      · rw [mem_enumList_iff] at hmem
        obtain ⟨c, hc, hmemc⟩ := hmem
        have hszc : sizeOf c < sizeOf cs := List.sizeOf_lt_of_mem hc
        have hsz : sizeOf (XNode.elem t a cs) = 1 + sizeOf t + sizeOf a + sizeOf cs :=
          XNode.elem.sizeOf_spec t a cs
        have hck : sizeOf c ≤ k := by omega
        obtain ⟨rel, hrel, hocc⟩ := ih c hck (XNode.elem t a cs :: anc) m manc hmemc
        exact ⟨rel ++ [XNode.elem t a cs], by simp [hrel], OccIn.step hc hocc⟩

/-- Membership in the document-order enumeration coincides with the
occurrence relation. -/
theorem mem_enumAll_iff {tree m : XNode} {manc : List XNode} :
    (m, manc) ∈ enumNodes [] tree ↔ OccIn m manc tree := by
  constructor
  · intro h
    obtain ⟨rel, hrel, hocc⟩ := occIn_of_enum_aux (sizeOf tree) tree le_rfl [] m manc h
    simpa [hrel] using hocc
  · intro h
    simpa using enum_of_occIn h []

lemma occIn_nil {m c : XNode} {l : List XNode} (h : OccIn m l c) :
    l = [] → m = c := by
  cases h with
  | refl => intro _; rfl
  | step hc hocc => intro he; simp at he

lemma occIn_cons_aux :
    ∀ (k : ℕ) (m a r : XNode) (anc : List XNode),
      (a :: anc).length ≤ k → OccIn m (a :: anc) r →
      m ∈ childrenOf a ∧ OccIn a anc r := by
  intro k
  induction k with
  | zero =>
    intro m a r anc hlen _
    simp at hlen
  | succ k ih =>
    intro m a r anc hlen h
    generalize hl : a :: anc = l at h
    cases h with
    | refl => simp at hl
    | step hc hocc =>
      rename_i manc t a2 cs c
      cases manc with
      | nil =>
        simp at hl
        obtain ⟨ha, hanc⟩ := hl
        subst ha
        subst hanc
        have hm := occIn_nil hocc rfl
        subst hm
        exact ⟨by simpa [childrenOf] using hc, OccIn.refl _⟩
      | cons b manc2 =>
        rw [List.cons_append] at hl
        injection hl with hab hanc
        subst hab
        subst hanc
        have hlen2 : (a :: manc2).length ≤ k := by
          simp at hlen ⊢
          omega
        obtain ⟨hm, hocc2⟩ := ih m a c manc2 hlen2 hocc
        exact ⟨hm, OccIn.step hc hocc2⟩

/-- Peeling one ancestor off an occurrence: the node is a child of its
nearest ancestor, which itself occurs with the remaining chain. -/
lemma occIn_cons {m a : XNode} {anc : List XNode} {r : XNode}
    (h : OccIn m (a :: anc) r) : m ∈ childrenOf a ∧ OccIn a anc r :=
  occIn_cons_aux (a :: anc).length m a r anc le_rfl h

/-! ### String-level lemmas -/

lemma string_join_singleton (t : String) : String.join [t] = t := rfl

/-- Every token produced by the whitespace splitter is free of
whitespace characters. -/
lemma pySplitAux_tokens_no_ws :
    ∀ (l : List Char) (t : List Char), t ∈ (pySplitAux l).1 →
      ∀ c ∈ t, isPyWS c = false := by
  intro l
  induction l with
  | nil =>
    intro t ht
    simp [pySplitAux] at ht
  | cons c cs ih =>
    intro t ht d hd
    rw [pySplitAux] at ht
    by_cases hw : isPyWS c
    · simp only [hw, if_true] at ht
      exact ih t ht d hd
    · simp only [hw, if_false, Bool.false_eq_true] at ht
      rcases hsp : pySplitAux cs with ⟨ts, b⟩
      rw [hsp] at ht
      cases b with
      | true =>
        cases ts with
        | nil =>
          simp at ht
          rcases ht with rfl
          simp at hd
          rcases hd with rfl
          simpa using hw
        | cons t0 ts2 =>
          simp at ht
          rcases ht with rfl | hmem
          · simp at hd
            rcases hd with rfl | hd0
            · simpa using hw
            · exact ih t0 (by rw [hsp]; exact List.mem_cons_self _ _) d hd0
          · exact ih t (by rw [hsp]; exact List.mem_cons_of_mem _ hmem) d hd
      | false =>
        simp at ht
        rcases ht with rfl | hmem
        · simp at hd
          rcases hd with rfl
          simpa using hw
        · exact ih t (by rw [hsp]; exact hmem) d hd

/-- Characters of a `;`-join come from the separator or from one of the
tokens. -/
lemma joinSemiChars_mem :
    ∀ (ts : List (List Char)) (c : Char), c ∈ joinSemiChars ts →
      c = ';' ∨ ∃ t ∈ ts, c ∈ t := by
  intro ts
  induction ts with
  | nil => intro c hc; simp [joinSemiChars] at hc
  | cons t ts ih =>
    intro c hc
    cases ts with
    | nil =>
      simp [joinSemiChars] at hc
      exact Or.inr ⟨t, by simp, hc⟩
    | cons t2 ts2 =>
      have hc2 : c ∈ t ++ ';' :: joinSemiChars (t2 :: ts2) := hc
      rw [List.mem_append] at hc2
      rcases hc2 with hc | hc
      · exact Or.inr ⟨t, by simp, hc⟩
      · rw [List.mem_cons] at hc
        rcases hc with rfl | hc
        · exact Or.inl rfl
        · rcases ih c hc with h | ⟨t3, ht3, hct⟩
          · exact Or.inl h
          · exact Or.inr ⟨t3, List.mem_cons_of_mem _ ht3, hct⟩

/-- The `';'.join(....split())` normalisation never produces whitespace
characters. -/
lemma pyJoinSplit_no_ws (s : String) :
    ∀ c ∈ (pyJoinSplit s).data, isPyWS c = false := by
  intro c hc
  have hc2 : c ∈ joinSemiChars (pySplitAux s.toList).1 := hc
  rcases joinSemiChars_mem _ c hc2 with rfl | ⟨t, ht, hct⟩
  · decide
  · exact pySplitAux_tokens_no_ws s.toList t ht c hct

/-- Shape of every row the rule extractor emits. -/
lemma paRuleParser_shape {tree x : XNode} {r : List String}
    (h : r ∈ paRuleParser tree x) :
    ∃ ow nm f1 f2 f3,
      r = [ow, nm, pyJoinSplit f1, pyJoinSplit f2, pyJoinSplit f3] := by
  rw [paRuleParser, List.mem_flatMap] at h
  obtain ⟨a, _, hr⟩ := h
  rw [recordsFor, List.mem_map] at hr
  obtain ⟨z, _, hz⟩ := hr
  rcases z with ⟨s, d, q⟩
  exact ⟨_, _, _, _, _, hz.symm⟩

/-! ### Claims -/

/-- C9: the results of the object parser and the rule parser are
independent of their `xml` argument — for any ambient document tree and
any two values passed as the parameter, the outputs coincide, because
both routines read only the shared ambient tree. -/
theorem C9_xml_parameter_unused (tree x y : XNode) :
    paObjParser tree x = paObjParser tree y ∧
      paRuleParser tree x = paRuleParser tree y :=
  ⟨rfl, rfl⟩

/-- C1 (failing input): on `exDoc`, rule `r1` has source and destination
lists but no service list, and `r2` has all three; the service node-set
contains only `r2`'s service, yet the single emitted record carries rule
name `r1` together with `r2`'s service text `tcp-80` — the zipped triple
does *not* come from one and the same rule entry, refuting the alignment
invariant. -/
theorem C1_zip_misalignment :
    paRuleParser exDoc exDoc = [["DMZ", "r1", "a1", "tcp-80", "b1"]] ∧
      (ruleFieldNodes exDoc "vsys1" "service").map (fun q => values0 q.2)
        = ["r2"] ∧
      (ruleFieldNodes exDoc "vsys1" "source").map (fun q => values0 q.2)
        = ["r1", "r2"] := by
  refine ⟨by decide, by decide, by decide⟩

/-- C2 (failing input): on `exDoc`, the entry `r1` is missing its
service member list, yet the only emitted record bears rule name `r1`;
and the entry `r2`, which has all three lists present and non-empty,
produces no record at all.  Both directions of the claim fail. -/
theorem C2_missing_list_not_excluded :
    (paRuleParser exDoc exDoc).map (fun r => r.get? 1) = [some "r1"] ∧
      (ruleFieldNodes exDoc "vsys1" "service").map (fun q => values0 q.2)
        = ["r2"] ∧
      (ruleFieldNodes exDoc "vsys1" "destination").map (fun q => values0 q.2)
        = ["r1", "r2"] := by
  refine ⟨by decide, by decide, by decide⟩

/-- C10: every emitted record is a list of exactly five string fields,
and the source, port and destination fields (positions 2-4) contain no
whitespace characters — each is the `;`-join of the whitespace-split
tokens of the corresponding member list text. -/
theorem C10_record_shape (tree x : XNode) (r : List String)
    (h : r ∈ paRuleParser tree x) :
    r.length = 5 ∧ ∀ f ∈ r.drop 2, ∀ c ∈ f.data, isPyWS c = false := by
  obtain ⟨ow, nm, f1, f2, f3, rfl⟩ := paRuleParser_shape h
  refine ⟨rfl, ?_⟩
  intro f hf c hc
  simp only [List.drop, List.mem_cons, List.not_mem_nil, or_false] at hf
  rcases hf with rfl | rfl | rfl
  · exact pyJoinSplit_no_ws f1 c hc
  · exact pyJoinSplit_no_ws f2 c hc
  · exact pyJoinSplit_no_ws f3 c hc

/-- Witness for C10 at a concrete document and record. -/
theorem C10_record_shape_witness :
    (["DMZ", "r1", "a1", "tcp-80", "b1"] ∈ paRuleParser exDoc exDoc) ∧
      (["DMZ", "r1", "a1", "tcp-80", "b1"].length = 5 ∧
        ∀ f ∈ (["DMZ", "r1", "a1", "tcp-80", "b1"] : List String).drop 2,
          ∀ c ∈ f.data, isPyWS c = false) :=
  ⟨by decide, C10_record_shape exDoc exDoc _ (by decide)⟩

/-- C4 (counterexample): in `doc4` the entry `vsys1` has a grandparent
entry named `fw1`, and the entry `vsys2` also has `vsys` in its name;
the claim predicts scope identifiers `fw1` (from both entries), but the
resolver returns exactly `["vsys1"]`: the grandparent name is never
collected, and `vsys2` (which lacks display-name text) yields no scope
at all. -/
theorem C4_grandparent_refuted :
    selfAncestors doc4 = ["vsys1"] ∧ "fw1" ∉ selfAncestors doc4 := by
  refine ⟨by decide, by decide⟩

/-- C4 (amended): in self-managed mode a scope is produced exactly for
each text node sitting directly under a `display-name` child of an entry
whose name attribute contains `vsys`, and the scope identifier is that
entry's *own* name attribute (not its grandparent's); entries without
display-name text yield no scope. -/
theorem C4_scope_is_entry_name (tree : XNode) (a : String) :
    a ∈ selfAncestors tree ↔
      ∃ s d e anc, OccIn (XNode.text s) (d :: e :: anc) tree ∧
        tagIs d "display-name" = true ∧ tagIs e "entry" = true ∧
        strContains (nameAttrD e) "vsys" = true ∧ a = nameAttrD e := by
  rw [selfAncestors, List.mem_filterMap]
  constructor
  · rintro ⟨⟨n, anc0⟩, hmem, hf⟩
    cases n with
    | elem t ats cs => simp at hf
    | text s =>
      rcases anc0 with _ | ⟨d, _ | ⟨e, anc⟩⟩
      · simp at hf
      · simp at hf
      · rw [mem_enumAll_iff] at hmem
        have hf2 : (if tagIs d "display-name" && tagIs e "entry" &&
            strContains (nameAttrD e) "vsys"
            then some (nameAttrD e) else none) = some a := hf
        simp only [Option.ite_none_right_eq_some, Bool.and_eq_true,
          Option.some.injEq] at hf2
        obtain ⟨⟨⟨hd, he⟩, hv⟩, ha⟩ := hf2
        exact ⟨s, d, e, anc, hmem, hd, he, hv, ha.symm⟩
  · rintro ⟨s, d, e, anc, hocc, hd, he, hv, rfl⟩
    refine ⟨(XNode.text s, d :: e :: anc), mem_enumAll_iff.mpr hocc, ?_⟩
    show (if tagIs d "display-name" && tagIs e "entry" &&
        strContains (nameAttrD e) "vsys"
        then some (nameAttrD e) else none) = some (nameAttrD e)
    rw [hd, he, hv]
    simp

/-- C6 (counterexample): `doc6` is a Panorama document with two distinct
device-group entries both named `DG1` (the first containing two virtual
systems).  The scope list handed to the rule loop is `["DG1", "DG1"]`:
the identifier `DG1` appears twice, refuting the claim that each
distinct scope identifier occurs at most once. -/
theorem C6_duplicate_scope_identifiers :
    isPanorama doc6 = true ∧ panoramaAncestors doc6 = ["DG1", "DG1"] ∧
      ¬ (panoramaAncestors doc6).Nodup := by
  refine ⟨by decide, by decide, by decide⟩

/-- C6 (amended): the Panorama scope list is deduplicated per ancestor
*node*, not per identifier string — it contains one element for each
entry node that carries a name and has the
`devices/entry[@name]/vsys/entry[@name]` chain beneath it (so several
virtual systems below one ancestor contribute it once, while two
distinct such ancestors sharing a name contribute the identifier twice);
and feeding the rule loop a deduplicated scope list yields the same set
of records. -/
theorem C6_dedup_per_node :
    (∀ (tree : XNode) (a : String),
        a ∈ panoramaAncestors tree ↔
          ∃ o anc, OccIn o anc tree ∧ isEntryWithName o = true ∧
            hasPanChain o = true ∧ a = nameAttrD o) ∧
    (∀ (tree : XNode) (pc : Bool) (as : List String),
        (as.dedup.flatMap (recordsFor tree pc)).toFinset =
          (as.flatMap (recordsFor tree pc)).toFinset) := by
  constructor
  · intro tree a
    rw [panoramaAncestors, List.mem_filterMap]
    constructor
    · rintro ⟨⟨o, anc⟩, hmem, hf⟩
      rw [mem_enumAll_iff] at hmem
      have hf2 : (if isEntryWithName o && hasPanChain o
          then some (nameAttrD o) else none) = some a := hf
      simp only [Option.ite_none_right_eq_some, Bool.and_eq_true,
        Option.some.injEq] at hf2
      exact ⟨o, anc, hmem, hf2.1.1, hf2.1.2, hf2.2.symm⟩
    · rintro ⟨o, anc, hocc, h1, h2, rfl⟩
      refine ⟨(o, anc), mem_enumAll_iff.mpr hocc, ?_⟩
      simp [h1, h2]
  · intro tree pc as
    ext r
    simp [List.mem_toFinset, List.mem_flatMap, List.mem_dedup]

/-- C3 (counterexample): in `doc3` two distinct entries share the
resolved scope name `avsys`, with display-name texts `X` and `Y`; the
owner label attached to that scope is their concatenation `XY`, which is
the display-name text of *neither* scope entry although display-name
text exists — refuting the claim that the label equals the display-name
text of the scope entry whenever one exists. -/
theorem C3_label_is_concatenation :
    "avsys" ∈ selfAncestors doc3 ∧
      displayNameTexts doc3 "avsys" = ["X", "Y"] ∧
      ownerLabel doc3 false "avsys" = "XY" ∧
      "XY" ∉ displayNameTexts doc3 "avsys" := by
  refine ⟨by decide, by decide, by decide, by decide⟩

/-- C3 (amended): for every scope the self-managed resolver hands over,
display-name text exists (so the claimed fallback to the scope
identifier never arises); the owner label is the concatenation, in
document order, of the display-name texts of *all* entries bearing the
scope identifier as name; in particular, when that text is unique the
label equals it. -/
theorem C3_owner_label_amended (tree : XNode) (a : String)
    (ha : a ∈ selfAncestors tree) :
    displayNameTexts tree a ≠ [] ∧
      ownerLabel tree false a = String.join (displayNameTexts tree a) ∧
      (∀ t, displayNameTexts tree a = [t] → ownerLabel tree false a = t) := by
  have hne : displayNameTexts tree a ≠ [] := by
    rw [selfAncestors, List.mem_filterMap] at ha
    obtain ⟨⟨n, anc0⟩, hmem, hf⟩ := ha
    cases n with
    | elem t ats cs => simp at hf
    | text s =>
      rcases anc0 with _ | ⟨d, _ | ⟨e, anc⟩⟩
      · simp at hf
      · simp at hf
      · have hf2 : (if tagIs d "display-name" && tagIs e "entry" &&
            strContains (nameAttrD e) "vsys"
            then some (nameAttrD e) else none) = some a := hf
        simp only [Option.ite_none_right_eq_some, Bool.and_eq_true,
          Option.some.injEq] at hf2
        obtain ⟨⟨⟨hd, he⟩, hv⟩, haname⟩ := hf2
        have hname : getAttr e "name" = some a := by
          rcases hga : getAttr e "name" with _ | b
          · exfalso
            rw [nameAttrD, hga] at hv
            simp only [Option.getD_none] at hv
            exact absurd hv (by decide)
          · rw [nameAttrD, hga, Option.getD_some] at haname
            rw [haname]
        have hs : s ∈ displayNameTexts tree a := by
          rw [displayNameTexts, List.mem_filterMap]
          refine ⟨(XNode.text s, d :: e :: anc), hmem, ?_⟩
          show (if tagIs d "display-name" && tagIs e "entry" &&
              (getAttr e "name" == some a) then some s else none) = some s
          rw [hd, he, hname]
          simp
        exact List.ne_nil_of_mem hs
  refine ⟨hne, rfl, ?_⟩
  intro t ht
  show String.join (displayNameTexts tree a) = t
  rw [ht, string_join_singleton]

/-- Witness for the amended C3 at a concrete self-managed document. -/
theorem C3_owner_label_amended_witness :
    ("vsys1" ∈ selfAncestors doc4) ∧
      (displayNameTexts doc4 "vsys1" ≠ [] ∧
        ownerLabel doc4 false "vsys1" =
          String.join (displayNameTexts doc4 "vsys1") ∧
        (∀ t, displayNameTexts doc4 "vsys1" = [t] →
          ownerLabel doc4 false "vsys1" = t)) :=
  ⟨by decide, C3_owner_label_amended doc4 "vsys1" (by decide)⟩

lemma normPort_eq (u : String) :
    normPort u = if u = "1-65535" then "any" else u := by
  rw [normPort]
  by_cases h : u = "1-65535"
  · simp [h]
  · simp [h]

lemma tagIs_false_of_ne {n : XNode} {t1 t2 : String}
    (h : tagIs n t1 = true) (hne : t1 ≠ t2) : tagIs n t2 = false := by
  cases n with
  | text s => rfl
  | elem tg ats cs =>
    rw [tagIs] at h ⊢
    simp only [beq_iff_eq] at h
    subst h
    exact beq_eq_false_iff_ne.mpr hne

/-- C7: a binding `(nm, ty)` is in the services dictionary exactly when
some `service/entry[@name]/protocol/*/port` occurrence produces it; the
derived type is the protocol-child tag, an underscore, and the port
text — with the full range `1-65535` replaced by `any` and any other
text passed through unchanged. -/
theorem C7_service_type (tree x : XNode) (nm ty : String) :
    (nm, ty) ∈ (paObjParser tree x).1 ↔
      ∃ n pc proto e svc anc,
        OccIn n (pc :: proto :: e :: svc :: anc) tree ∧
        tagIs n "port" = true ∧ isElemNode pc = true ∧
        tagIs proto "protocol" = true ∧ isEntryWithName e = true ∧
        tagIs svc "service" = true ∧ nm = values0 e ∧
        ty = tagOfD pc ++ "_" ++
          (if itertext n = "1-65535" then "any" else itertext n) := by
  show (nm, ty) ∈ servicesOf tree ↔ _
  rw [servicesOf, List.mem_filterMap]
  constructor
  · rintro ⟨⟨n, anc0⟩, hmem, hf⟩
    rcases anc0 with _ | ⟨pc, _ | ⟨proto, _ | ⟨e, _ | ⟨svc, anc⟩⟩⟩⟩
    · simp at hf
    · simp at hf
    · simp at hf
    · simp at hf
    · rw [mem_enumAll_iff] at hmem
      have hf2 : (if tagIs n "port" && isElemNode pc &&
          tagIs proto "protocol" && isEntryWithName e && tagIs svc "service"
          then some (values0 e, tagOfD pc ++ "_" ++ normPort (itertext n))
          else none) = some (nm, ty) := hf
      simp only [Option.ite_none_right_eq_some, Bool.and_eq_true,
        Option.some.injEq, Prod.mk.injEq] at hf2
      obtain ⟨⟨⟨⟨⟨h1, h2⟩, h3⟩, h4⟩, h5⟩, h6, h7⟩ := hf2
      exact ⟨n, pc, proto, e, svc, anc, hmem, h1, h2, h3, h4, h5, h6.symm,
        by rw [← h7, normPort_eq]⟩
  · rintro ⟨n, pc, proto, e, svc, anc, hocc, h1, h2, h3, h4, h5, rfl, rfl⟩
    refine ⟨(n, pc :: proto :: e :: svc :: anc), mem_enumAll_iff.mpr hocc, ?_⟩
    show (if tagIs n "port" && isElemNode pc &&
        tagIs proto "protocol" && isEntryWithName e && tagIs svc "service"
        then some (values0 e, tagOfD pc ++ "_" ++ normPort (itertext n))
        else none) = some (values0 e, _)
    rw [h1, h2, h3, h4, h5]
    simp [normPort_eq]

/-- C5: when the document carries the Panorama marker the rule parser
takes the centrally-managed branch; every emitted record's owner label
is a resolved scope identifier with `-pan` appended; and for any
virtual-system entry occurring on a
`vsys/entry[@name]/devices/entry[@name]` chain, the third entry-tagged
element of its ancestor-or-self chain is exactly that outer entry, whose
name is in the resolved scope list. -/
theorem C5_centrally_managed (tree x : XNode) (h : isPanorama tree = true) :
    paRuleParser tree x = (panoramaAncestors tree).flatMap (recordsFor tree true) ∧
      (∀ r ∈ paRuleParser tree x, ∃ a, a ∈ panoramaAncestors tree ∧
          r.head? = some (a ++ "-pan")) ∧
      (∀ ve v de dv o rest, OccIn ve (v :: de :: dv :: o :: rest) tree →
          isEntryWithName ve = true → tagIs v "vsys" = true →
          isEntryWithName de = true → tagIs dv "devices" = true →
          isEntryWithName o = true →
          ((ve :: v :: de :: dv :: o :: rest).filter
              (fun z => tagIs z "entry")).get? 2 = some o ∧
            nameAttrD o ∈ panoramaAncestors tree) := by
  have heq : paRuleParser tree x =
      (panoramaAncestors tree).flatMap (recordsFor tree true) := by
    simp [paRuleParser, h]
  refine ⟨heq, ?_, ?_⟩
  · intro r hr
    rw [heq, List.mem_flatMap] at hr
    obtain ⟨a, ha, hrec⟩ := hr
    rw [recordsFor, List.mem_map] at hrec
    obtain ⟨z, _, hz⟩ := hrec
    rcases z with ⟨sd, dd, qd⟩
    refine ⟨a, ha, ?_⟩
    rw [← hz]
    rfl
  · intro ve v de dv o rest hocc hve hv hde hdv ho
    obtain ⟨hm1, hocc1⟩ := occIn_cons hocc
    obtain ⟨hm2, hocc2⟩ := occIn_cons hocc1
    obtain ⟨hm3, hocc3⟩ := occIn_cons hocc2
    obtain ⟨hm4, hocc4⟩ := occIn_cons hocc3
    have hvel : tagIs ve "entry" = true := by
      have h2 := hve
      rw [isEntryWithName, Bool.and_eq_true] at h2
      exact h2.1
    have hdel : tagIs de "entry" = true := by
      have h2 := hde
      rw [isEntryWithName, Bool.and_eq_true] at h2
      exact h2.1
    have hol : tagIs o "entry" = true := by
      have h2 := ho
      rw [isEntryWithName, Bool.and_eq_true] at h2
      exact h2.1
    have hvf : tagIs v "entry" = false := tagIs_false_of_ne hv (by decide)
    have hdvf : tagIs dv "entry" = false := tagIs_false_of_ne hdv (by decide)
    constructor
    · simp [List.filter_cons, hvel, hdel, hol, hvf, hdvf]
    · rw [panoramaAncestors, List.mem_filterMap]
      refine ⟨(o, rest), mem_enumAll_iff.mpr hocc4, ?_⟩
      have hpan : hasPanChain o = true := by
        rw [hasPanChain, List.any_eq_true]
        refine ⟨dv, hm4, ?_⟩
        rw [Bool.and_eq_true]
        refine ⟨hdv, ?_⟩
        rw [List.any_eq_true]
        refine ⟨de, hm3, ?_⟩
        rw [Bool.and_eq_true]
        refine ⟨hde, ?_⟩
        rw [List.any_eq_true]
        refine ⟨v, hm2, ?_⟩
        rw [Bool.and_eq_true]
        refine ⟨hv, ?_⟩
        rw [List.any_eq_true]
        exact ⟨ve, hm1, hve⟩
      simp [ho, hpan]

/-- Witness for C5 at a concrete Panorama document. -/
theorem C5_centrally_managed_witness :
    isPanorama panDoc = true ∧
      (paRuleParser panDoc panDoc =
          (panoramaAncestors panDoc).flatMap (recordsFor panDoc true) ∧
        (∀ r ∈ paRuleParser panDoc panDoc,
            ∃ a, a ∈ panoramaAncestors panDoc ∧
              r.head? = some (a ++ "-pan")) ∧
        (∀ ve v de dv o rest, OccIn ve (v :: de :: dv :: o :: rest) panDoc →
            isEntryWithName ve = true → tagIs v "vsys" = true →
            isEntryWithName de = true → tagIs dv "devices" = true →
            isEntryWithName o = true →
            ((ve :: v :: de :: dv :: o :: rest).filter
                (fun z => tagIs z "entry")).get? 2 = some o ∧
              nameAttrD o ∈ panoramaAncestors panDoc)) :=
  ⟨by decide, C5_centrally_managed panDoc panDoc (by decide)⟩

/-- C8: across any collection of documents, the aggregated output has
no duplicate rows, and it contains a row exactly when some document
produced that 5-tuple — so each distinct produced tuple appears exactly
once, identical tuples from different documents collapse, and tuples
differing in any component stay distinct rows. -/
theorem C8_aggregate_unique (docs : List XNode) (r : List String) :
    (aggregateRules docs).Nodup ∧
      (r ∈ aggregateRules docs ↔ ∃ d ∈ docs, r ∈ paRuleParser d d) := by
  refine ⟨List.nodup_dedup _, ?_⟩
  rw [aggregateRules, List.mem_dedup, List.mem_flatten]
  constructor
  · rintro ⟨l, hl, hr⟩
    rw [List.mem_map] at hl
    obtain ⟨d, hd, rfl⟩ := hl
    exact ⟨d, hd, hr⟩
  · rintro ⟨d, hd, hr⟩
    exact ⟨paRuleParser d d, List.mem_map_of_mem _ hd, hr⟩
